import Mathlib

/-!
# Verification of the broker sale-rotation engine and scheduler dispatch loop

Shallow embedding of `frame/broker/src/implementation.rs` (the coretime broker
pallet's tick / sale-rotation / revenue / core-scheduling logic) and of the
task-scheduler dispatch loop, with proofs of the specification claims.

Conventions of the embedding:
* machine integers are modelled as `Nat` / `Int`; widths are made explicit
  (`% 2 ^ w`, saturation bounds) exactly where the source's semantics depend
  on them;
* the FRAME storage maps become fields of an explicit `BrokerState` record;
  `StorageMap::insert`/`remove` become `Function.update`;
* dispatchable errors become `Except BrokerError`; an error result models the
  transactional abort of the call (no storage mutation is committed);
* external collaborators (`T::Coretime`, the clock, the balances ledger) are
  inputs (`TickInputs`) or emitted data (returned assignment lists, events).
-/

namespace Broker

/-- `Timeslice` is `u32` in the source. -/
abbrev Timeslice := Nat

/-- `CoreIndex` is `u16` in the source. -/
abbrev CoreIndex := Nat

/-- `BalanceOf<T>`: the pallet is generic over the balance type; we model the
mathematical value as an unbounded natural and, where a claim is about
overflow of a concrete 128-bit balance, use the explicitly checked variants
below. -/
abbrev Balance := Nat

/-! ## Perbill fixed-point arithmetic (`sp_arithmetic::Perbill`)

`Perbill` is a parts-per-billion fixed-point fraction.  We model a `Perbill`
value by its parts (a natural `≤ ACCURACY`). -/

/-- `Perbill::ACCURACY = 1_000_000_000`. -/
def ACCURACY : Nat := 1000000000

/-- `Perbill::from_rational(p, q)`: computes `⌊p * ACCURACY / q⌋` (rounding
down), saturating to one when `q = 0` or `p > q`
(`from_rational_with_rounding(p, q, Down).unwrap_or(one)`). -/
def fromRational (p q : Nat) : Nat :=
  if q = 0 then ACCURACY
  else if q < p then ACCURACY
  else p * ACCURACY / q

/-- `PerThing::left_from_one`: `one - self`. -/
def leftFromOne (e : Nat) : Nat := ACCURACY - e

/-- `sp_arithmetic::helpers_128bit`-style remainder correction used by
`Perbill`'s `Mul<N>` impl: `(x % ACCURACY) * e / ACCURACY`, rounded to
nearest preferring down (`Rounding::NearestPrefDown`). -/
def rationalMulCorrection (x e : Nat) : Nat :=
  x % ACCURACY * e / ACCURACY
    + (if ACCURACY / 2 < x % ACCURACY * e % ACCURACY then 1 else 0)

/-- `Perbill(e) * x` (the `ops::Mul<N>` impl, `overflow_prune_mul`):
`(x / ACCURACY) * e + rational_mul_correction(x, e)`.  For `e ≤ ACCURACY`
and a 128-bit `x` none of the intermediate products overflow
(`x / ACCURACY * e ≤ x` and the correction is `< ACCURACY`), so the model
needs no overflow checks here. -/
def perbillMul (e x : Nat) : Nat :=
  x / ACCURACY * e + rationalMulCorrection x e

/-! ## `bump_price` (implementation.rs lines 40–61)

```rust
fn bump_price(offered: CoreIndex, ideal: CoreIndex, sold: CoreIndex, old: BalanceOf<T>)
    -> BalanceOf<T>
{
    if sold > ideal {
        let extra = if offered > ideal {
            Perbill::from_rational((sold - ideal) as u32, (offered - ideal) as u32)
        } else { Perbill::zero() };
        old + extra * old
    } else {
        let extra = if ideal > 0 {
            Perbill::from_rational(sold as u32, ideal as u32).left_from_one()
        } else { Perbill::zero() };
        old - extra * old
    }
}
``` -/

/-- `bump_price`, with the generic balance modelled as an unbounded natural
(the exact mathematical result of the source expression). -/
def bump_price (offered ideal sold : CoreIndex) (old : Balance) : Balance :=
  if ideal < sold then
    let extra := if ideal < offered then fromRational (sold - ideal) (offered - ideal) else 0
    old + perbillMul extra old
  else
    let extra := if 0 < ideal then leftFromOne (fromRational sold ideal) else 0
    old - perbillMul extra old

/-! ## Saturating / wrapping machine arithmetic helpers -/

/-- `u16::saturating_inc` (used on `first_core : CoreIndex`). -/
def satSuccU16 (n : Nat) : Nat := if n < 65535 then n + 1 else n

/-- `u32::saturating_inc` (used on `last_timeslice : Timeslice`). -/
def satSuccU32 (n : Nat) : Nat := if n < 4294967295 then n + 1 else n

/-- `i32::saturating_add` (`SignedPartCount` accounting). -/
def satAddI32 (a b : Int) : Int := max (-(2 ^ 31)) (min (2 ^ 31 - 1) (a + b))

/-- `i32::saturating_sub` (`saturating_reduce`). -/
def satSubI32 (a b : Int) : Int := max (-(2 ^ 31)) (min (2 ^ 31 - 1) (a - b))

/-- `u32 as i32` (two's-complement reinterpretation). -/
def u32AsI32 (n : Nat) : Int := if n < 2 ^ 31 then (n : Int) else (n : Int) - 2 ^ 32

/-- `i32 as u32` (two's-complement reinterpretation). -/
def i32AsU32 (v : Int) : Nat := (v % 2 ^ 32).toNat

/-- Rust's `a..b` range as a list (`[a, a+1, …, b-1]`, empty when `b ≤ a`). -/
def rangeRust (a b : Nat) : List Nat := List.range' a (b - a)

/-! ## Core parts and assignments

Modelled from the spec: the broker's `lib.rs` (type declarations) is not under
`src/`; only `implementation.rs` and `benchmarking.rs` are.  A `CorePart` is an
80-bit mask over a core's capacity slices (the spec's "capacity-mask" with the
constant `57_600 / 80` parts per bit); we model it as a natural `< 2 ^ 80`.
`CoreAssignment` is the assignment target: idle, the instantaneous pool, or a
specific task. -/

/-- Binary popcount, structurally recursive on a fuel argument so that it
reduces inside the kernel; `fuel ≥ n` suffices since `n / 2` at least halves. -/
def countOnesAux (fuel : Nat) (n : Nat) : Nat :=
  match fuel, n with
  | 0, _ => 0
  | _, 0 => 0
  | fuel + 1, m => m % 2 + countOnesAux fuel (m / 2)

/-- `u32::count_ones` of a bitmask (the number of set bits of `n`). -/
def countOnes (n : Nat) : Nat := countOnesAux n n

/-- `CorePart::complete()`: all 80 mask bits set. -/
def completeMask : Nat := 2 ^ 80 - 1

/-- Modelled from the spec: assignment target of a capacity slice
(`CoreAssignment` in the missing `lib.rs`; variant order as used for
`Ord`-based sorting in `process_core_schedule`). -/
inductive CoreAssignment where
  | Idle : CoreAssignment
  | Pool : CoreAssignment
  | Task (para : Nat) : CoreAssignment
deriving DecidableEq

/-- `ScheduleItem { part, assignment }`. -/
structure ScheduleItem where
  part : Nat
  assignment : CoreAssignment
deriving DecidableEq

/-- `Schedule` (a bounded vector of schedule items in the source; the bound is
declared in the missing `lib.rs`, so the model keeps the list unbounded —
no claim depends on truncation). -/
abbrev Schedule := List ScheduleItem

/-! ## Storage records -/

/-- `StatusRecord { core_count, pool_size, last_timeslice, system_pool_size }`
(the fields used by `implementation.rs`). -/
structure StatusRecord where
  pool_size : Nat
  last_timeslice : Timeslice
  system_pool_size : Nat
deriving DecidableEq

/-- `ConfigRecord` (the fields used by `implementation.rs`). -/
structure ConfigRecord where
  advance_notice : Timeslice
  interlude_length : Nat
  leadin_length : Nat
  region_length : Timeslice
  ideal_bulk_proportion : Nat
  limit_cores_offered : Option CoreIndex
  core_count : CoreIndex
deriving DecidableEq

/-- `SaleInfoRecord` (spec §3 **SaleInfo**). -/
structure SaleInfoRecord where
  sale_start : Nat
  leadin_length : Nat
  start_price : Balance
  reserve_price : Balance
  region_begin : Timeslice
  region_end : Timeslice
  first_core : CoreIndex
  ideal_cores_sold : CoreIndex
  cores_offered : CoreIndex
  cores_sold : CoreIndex
deriving DecidableEq

/-- `InstaPoolIo` value: signed per-timeslice pool-size deltas. -/
structure PoolIoRecord where
  total : Int
  system : Int
deriving DecidableEq

/-- `InstaPoolHistoryRecord`. -/
structure InstaPoolHistoryRecord where
  total_contributions : Nat
  system_contributions : Nat
  maybe_payout : Option Balance
deriving DecidableEq

instance : Inhabited InstaPoolHistoryRecord := ⟨⟨0, 0, none⟩⟩

/-- `CompletionStatus`: `rotate_sale` only builds the `Complete` variant; the
source's other variant (a schedule still being assembled) is never produced
by the code under verification and is omitted. -/
inductive CompletionStatus where
  | Complete (sched : Schedule) : CompletionStatus
deriving DecidableEq

/-- `AllowedRenewalRecord { begin, price, completion }`. -/
structure AllowedRenewalRecord where
  begin : Timeslice
  price : Balance
  completion : CompletionStatus
deriving DecidableEq

/-- `RegionId { begin, core, part }`. -/
structure RegionId where
  begin : Timeslice
  core : CoreIndex
  part : Nat
deriving DecidableEq

/-- `RegionRecord { end, owner, paid }` (`end` is a Lean keyword, hence
`end_`). -/
structure RegionRecord where
  end_ : Timeslice
  owner : Nat
  paid : Option Balance
deriving DecidableEq

/-- The broker pallet's storage, as one record.  Maps become functions with an
explicit `Option`/default codomain; `insert`/`remove` become
`Function.update`. -/
structure BrokerState where
  status : Option StatusRecord
  configuration : Option ConfigRecord
  saleInfo : Option SaleInfoRecord
  workplan : Timeslice × CoreIndex → Option Schedule
  workload : CoreIndex → Schedule
  instaPoolIo : Timeslice → PoolIoRecord
  instaPoolHistory : Timeslice → Option InstaPoolHistoryRecord
  leases : List (Nat × Nat)
  reservations : List Schedule
  allowedRenewals : CoreIndex → Option AllowedRenewalRecord
  regions : RegionId → Option RegionRecord

/-- `InstaPoolIo::mutate(t, |r| { r.total.saturating_accrue(v); r.system.saturating_accrue(v); })`. -/
def ioAccrue (s : BrokerState) (t : Timeslice) (v : Int) : BrokerState :=
  let r := s.instaPoolIo t
  { s with instaPoolIo := Function.update s.instaPoolIo t ⟨satAddI32 r.total v, satAddI32 r.system v⟩ }

/-- `InstaPoolIo::mutate(t, |r| { r.total.saturating_reduce(v); r.system.saturating_reduce(v); })`. -/
def ioReduce (s : BrokerState) (t : Timeslice) (v : Int) : BrokerState :=
  let r := s.instaPoolIo t
  { s with instaPoolIo := Function.update s.instaPoolIo t ⟨satSubI32 r.total v, satSubI32 r.system v⟩ }

/-! ## `rotate_sale` (implementation.rs lines 66–171) -/

/-- The `leases.retain(...)` pass of `rotate_sale` (lines 130–149): every lease
writes a workplan entry at the next core index; a lease with
`until >= region_begin` is `expiring` — it is recorded as an allowed renewal
(beginning at `region_end`, at the new reserve price) and dropped from the
list; only leases with `until < region_begin` are kept.  Returns the updated
state, the next free core index and the retained lease list. -/
def applyLeases (region_begin region_end : Timeslice) (reserve_price : Balance) :
    List (Nat × Nat) → BrokerState → CoreIndex → BrokerState × CoreIndex × List (Nat × Nat)
  | [], s, first_core => (s, first_core, [])
  | (until_, para) :: rest, s, first_core =>
    let part := completeMask
    let assignment := CoreAssignment.Task para
    let schedule : Schedule := [{ part := part, assignment := assignment }]
    let s := { s with workplan := Function.update s.workplan (region_begin, first_core) (some schedule) }
    let expiring := region_begin ≤ until_
    let s :=
      if expiring then
        let record : AllowedRenewalRecord :=
          ⟨region_end, reserve_price, CompletionStatus.Complete schedule⟩
        { s with allowedRenewals := Function.update s.allowedRenewals first_core (some record) }
      else s
    let (s, fc, kept) := applyLeases region_begin region_end reserve_price rest s (satSuccU16 first_core)
    (s, fc, if expiring then kept else (until_, para) :: kept)

/-- `rotate_sale(old_sale, config)`: begin selling for the next sale period.
`now` is `frame_system::block_number()`. -/
def rotate_sale (s : BrokerState) (old_sale : SaleInfoRecord) (config : ConfigRecord)
    (now : Nat) : BrokerState :=
  let pool_item : ScheduleItem := { assignment := CoreAssignment.Pool, part := completeMask }
  let just_pool : Schedule := [pool_item]
  -- Clean up the old sale: unused cores go into the InstaPool.
  let unsold := rangeRust old_sale.cores_sold old_sale.cores_offered
  let total_old_pooled : Int := unsold.foldl (fun acc _ => satAddI32 acc 80) 0
  let s := unsold.foldl
    (fun st i =>
      { st with workplan := Function.update st.workplan (old_sale.region_begin, old_sale.first_core + i) (some just_pool) }) s
  let s := ioAccrue s old_sale.region_begin total_old_pooled
  let s := ioReduce s old_sale.region_end total_old_pooled
  -- Calculate the start price for the sale after.
  let reserve_price :=
    if 0 < old_sale.cores_offered then
      bump_price old_sale.cores_offered old_sale.ideal_cores_sold old_sale.cores_sold
        old_sale.reserve_price
    else old_sale.reserve_price
  let start_price := reserve_price * 2
  -- Set workload for the reserved (system, probably) workloads.
  let region_begin := old_sale.region_end
  let region_end := region_begin + config.region_length
  let resAcc := s.reservations.foldl
    (fun (acc : BrokerState × CoreIndex × Int) schedule =>
      let parts : Nat := (schedule.filter
          (fun i => i.assignment = CoreAssignment.Pool)).foldl
          (fun a i => a + countOnes i.part) 0
      ({ acc.1 with workplan := Function.update acc.1.workplan (region_begin, acc.2.1) (some schedule) },
        satSuccU16 acc.2.1, satAddI32 acc.2.2 (parts : Int)))
    (s, 0, 0)
  let s := resAcc.1
  let first_core := resAcc.2.1
  let total_pooled := resAcc.2.2
  let s := ioAccrue s region_begin total_pooled
  let s := ioReduce s region_end total_pooled
  -- Leases: can morph to a renewable.
  let leasesAcc := applyLeases region_begin region_end reserve_price s.leases s first_core
  let s := leasesAcc.1
  let first_core := leasesAcc.2.1
  let s := { s with leases := leasesAcc.2.2 }
  let max_possible_sales := config.core_count - first_core
  let limit_cores_offered := config.limit_cores_offered.getD 65535
  let cores_offered := min limit_cores_offered max_possible_sales
  let new_sale : SaleInfoRecord :=
    { sale_start := now + config.interlude_length
      leadin_length := config.leadin_length
      start_price := start_price
      reserve_price := reserve_price
      region_begin := region_begin
      region_end := region_end
      first_core := first_core
      ideal_cores_sold := perbillMul config.ideal_bulk_proportion cores_offered % 65536
      cores_offered := cores_offered
      cores_sold := 0 }
  { s with saleInfo := some new_sale }

/-! ## Assignment coalescing (`process_core_schedule`, lines 252–271)

The source collects `(CoreAssignment, PartsOf57600)` pairs, runs `Vec::sort`
(lexicographic by the derived `Ord`: assignment variant, then share) and then
merges each run of adjacent pairs with equal assignment into one pair by
summing the shares.  Because equal-comparing pairs are structurally equal, the
sorted result is unique, so any sorting algorithm models `Vec::sort`. -/

/-- Rank of a `CoreAssignment` under the derived `Ord` (variant order, then
payload). -/
def akey : CoreAssignment → Nat
  | CoreAssignment.Idle => 0
  | CoreAssignment.Pool => 1
  | CoreAssignment.Task p => 2 + p

/-- The derived lexicographic `Ord` on `(CoreAssignment, PartsOf57600)`. -/
def pairLe (x y : CoreAssignment × Nat) : Prop :=
  akey x.1 < akey y.1 ∨ (akey x.1 = akey y.1 ∧ x.2 ≤ y.2)

instance : DecidableRel pairLe := fun x y => by
  unfold pairLe; infer_instance

instance : IsTotal (CoreAssignment × Nat) pairLe :=
  ⟨fun x y => by unfold pairLe; omega⟩

instance : IsTrans (CoreAssignment × Nat) pairLe :=
  ⟨fun x y z hxy hyz => by unfold pairLe at hxy hyz ⊢; omega⟩

instance : IsAntisymm (CoreAssignment × Nat) pairLe :=
  ⟨fun x y hxy hyx => by
    unfold pairLe at hxy hyx
    have h1 : akey x.1 = akey y.1 := by omega
    have h2 : x.2 = y.2 := by omega
    have h3 : x.1 = y.1 := by
      cases hx : x.1 <;> cases hy : y.1 <;> rw [hx, hy] at h1 <;>
        simp [akey] at h1 ⊢ <;> omega
    exact Prod.ext h3 h2⟩

/-- `Vec::sort` on the `(assignment, share)` pairs. -/
def sortPairs (l : List (CoreAssignment × Nat)) : List (CoreAssignment × Nat) :=
  List.insertionSort pairLe l

/-- The adjacent-merge loop (lines 262–271): the source scans left to right,
adding a pair's share into the last emitted pair when the assignments match
and pushing it otherwise, so each maximal run of adjacent equal assignments
becomes one pair carrying the run's share sum.  This structural recursion
computes exactly that run summary (merging a run's shares from the right
instead of the left — the same sum). -/
def mergeAdj : List (CoreAssignment × Nat) → List (CoreAssignment × Nat)
  | [] => []
  | x :: t =>
    match mergeAdj t with
    | [] => [x]
    | y :: rest => if x.1 = y.1 then (x.1, x.2 + y.2) :: rest else x :: y :: rest

/-- The full coalescing step: sort, then merge adjacent equal assignments. -/
def coalesce (l : List (CoreAssignment × Nat)) : List (CoreAssignment × Nat) :=
  mergeAdj (sortPairs l)

/-! ## `process_core_schedule` (lines 236–273) -/

/-- `process_core_schedule(timeslice, rc_begin, core)`: consume the one-shot
workplan entry, merge the non-overlapping part of the carried workload, store
the merged schedule as the new workload, convert to `(assignment, parts)`
shares with idle filling, coalesce, and emit the result via
`T::Coretime::assign_core(core, rc_begin, assignment, None)` (modelled as the
returned `(rc_begin, assignment)`; `none` when there was no workplan entry and
nothing is emitted). -/
def process_core_schedule (s : BrokerState) (timeslice : Timeslice) (rc_begin : Nat)
    (core : CoreIndex) : BrokerState × Option (Nat × List (CoreAssignment × Nat)) :=
  match s.workplan (timeslice, core) with
  | none => (s, none)
  | some workplan =>
    let s := { s with workplan := Function.update s.workplan (timeslice, core) none }
    let workload := s.workload core
    let parts_used := workplan.foldl (fun a i => Nat.lor a i.part) 0
    let workplan2 := workplan ++ workload.filter (fun i => Nat.land i.part parts_used = 0)
    let s := { s with workload := Function.update s.workload core workplan2 }
    let intermediate := workplan2.map (fun i => (i.assignment, countOnes i.part * (57600 / 80)))
    let total_used := (intermediate.map (fun p => p.2)).sum
    let intermediate :=
      if total_used < 80 then intermediate ++ [(CoreAssignment.Idle, 80 - total_used)]
      else intermediate
    (s, some (rc_begin, coalesce intermediate))

/-! ## `process_pool` / `process_timeslice` (lines 215–233) -/

/-- `process_pool(timeslice, status)`: take the pool I/O deltas for the
timeslice, fold them (saturating `i32` arithmetic, then cast back to `u32`)
into the running pool sizes, and record the new totals as this timeslice's
`InstaPoolHistory` entry. -/
def process_pool (s : BrokerState) (timeslice : Timeslice) (status : StatusRecord) :
    BrokerState × StatusRecord :=
  let pool_io := s.instaPoolIo timeslice
  let s := { s with instaPoolIo := Function.update s.instaPoolIo timeslice ⟨0, 0⟩ }
  let status := { status with
    pool_size := i32AsU32 (satAddI32 (u32AsI32 status.pool_size) pool_io.total),
    system_pool_size := i32AsU32 (satAddI32 (u32AsI32 status.system_pool_size) pool_io.system) }
  let record : InstaPoolHistoryRecord :=
    ⟨status.pool_size, status.system_pool_size, none⟩
  ({ s with instaPoolHistory := Function.update s.instaPoolHistory timeslice (some record) },
    status)

/-- `process_timeslice(timeslice, status, config)`: process the pool deltas,
then run `process_core_schedule` for every core.  `period` is
`T::TimeslicePeriod::get()` (so `rc_begin = timeslice * period`). -/
def process_timeslice (s : BrokerState) (timeslice : Timeslice) (status : StatusRecord)
    (config : ConfigRecord) (period : Nat) : BrokerState × StatusRecord :=
  let pp := process_pool s timeslice status
  let rc_begin := timeslice * period
  let s := (List.range config.core_count).foldl
    (fun st core => (process_core_schedule st timeslice rc_begin core).1) pp.1
  (s, pp.2)

/-! ## Errors, events and external inputs -/

/-- The broker pallet errors reachable from the embedded functions. -/
inductive BrokerError where
  | Uninitialized : BrokerError
  | NothingToDo : BrokerError
  | UnknownRegion : BrokerError
  | NotOwner : BrokerError
  | RevenueAlreadyKnown : BrokerError
  | InvalidContributions : BrokerError
deriving DecidableEq

/-- Events emitted by the embedded functions. -/
inductive BrokerEvent where
  | Dropped (region_id : RegionId) : BrokerEvent
deriving DecidableEq

/-- External inputs to a tick: the relay-chain clock
(`T::Coretime::latest()`), the timeslice period constant, the pending revenue
notification (`T::Coretime::check_notify_revenue_info()`), and the local block
number (`frame_system::block_number()`).  `T::ConvertBalance` is modelled as
the identity. -/
structure TickInputs where
  coretimeLatest : Nat
  timeslicePeriod : Nat
  revenue : Option (Nat × Balance)
  now : Nat

/-- `current_timeslice()`: `T::Coretime::latest() / T::TimeslicePeriod::get()`. -/
def current_timeslice (inp : TickInputs) : Timeslice :=
  inp.coretimeLatest / inp.timeslicePeriod

/-! ## `process_revenue` (lines 177–207) -/

/-- `process_revenue()`: poll the revenue notification; a zero amount clears
the period's history record; otherwise the period's pool record is validated
(`maybe_payout` unknown, `total ≥ system > 0`), the system share is paid out
immediately (`Self::charge`, an external balance movement), and the remainder
is either recorded for later claims or the record is dropped.  An `error`
result models the transactional abort: no storage is mutated (in the source
all `ensure!`s precede the first write). -/
def process_revenue (s : BrokerState) (inp : TickInputs) :
    Except BrokerError (BrokerState × Bool) :=
  match inp.revenue with
  | none => Except.ok (s, false)
  | some (until_, amount0) =>
    let timeslice : Timeslice := until_ / inp.timeslicePeriod
    let amount : Balance := amount0
    if amount = 0 then
      Except.ok ({ s with instaPoolHistory := Function.update s.instaPoolHistory timeslice none },
        true)
    else
      let pool_record := (s.instaPoolHistory timeslice).getD default
      if pool_record.maybe_payout.isSome then Except.error BrokerError.RevenueAlreadyKnown
      else if pool_record.total_contributions < pool_record.system_contributions then
        Except.error BrokerError.InvalidContributions
      else if pool_record.total_contributions = 0 then
        Except.error BrokerError.InvalidContributions
      else
        let system_payout :=
          amount * pool_record.system_contributions / pool_record.total_contributions
        -- `Self::charge(&Self::account_id(), system_payout)`: external transfer.
        let pool_record := { pool_record with
          total_contributions := pool_record.total_contributions - pool_record.system_contributions,
          system_contributions := 0 }
        let amount := amount - system_payout
        if amount ≠ 0 ∧ 0 < pool_record.total_contributions then
          let pool_record := { pool_record with maybe_payout := some amount }
          Except.ok
            ({ s with instaPoolHistory := Function.update s.instaPoolHistory timeslice (some pool_record) },
              true)
        else
          Except.ok
            ({ s with instaPoolHistory := Function.update s.instaPoolHistory timeslice none },
              true)

/-! ## `do_tick` (lines 16–38) -/

/-- `do_tick()`: advance `last_timeslice` by one if the clock-derived current
timeslice is ahead, rotate the sale if the commit deadline has been reached,
process the committed timeslice and any pending revenue, then store the new
status.  An `error` result models the transactional abort of the call. -/
def do_tick (s : BrokerState) (inp : TickInputs) : Except BrokerError BrokerState :=
  match s.status with
  | none => Except.error BrokerError.Uninitialized
  | some status0 =>
    if status0.last_timeslice < current_timeslice inp then
      let status := { status0 with last_timeslice := satSuccU32 status0.last_timeslice }
      -- `T::Coretime::request_revenue_info_at(...)`: fire-and-forget, no state.
      match s.configuration with
      | none => Except.error BrokerError.Uninitialized
      | some config =>
        let commit_timeslice := status.last_timeslice + config.advance_notice
        let s1 :=
          match s.saleInfo with
          | some sale =>
            if sale.region_begin ≤ commit_timeslice then rotate_sale s sale config inp.now else s
          | none => s
        let pt := process_timeslice s1 commit_timeslice status config inp.timeslicePeriod
        match process_revenue pt.1 inp with
        | Except.error e => Except.error e
        | Except.ok (s3, _) => Except.ok { s3 with status := some pt.2 }
    else Except.error BrokerError.NothingToDo

/-! ## `utilize` (lines 293–317) -/

/-- `utilize(region_id, maybe_check_owner)`: look the region up, optionally
check ownership, advance `region_id.begin` past the last committed timeslice
if needed, remove the (possibly advanced) region id from storage, and either
return the region for use or emit `Dropped` when no timeslice of it remains
usable. -/
def utilize (s : BrokerState) (region_id : RegionId) (maybe_check_owner : Option Nat) :
    Except BrokerError (BrokerState × List BrokerEvent × Option (RegionId × RegionRecord)) :=
  match s.configuration with
  | none => Except.error BrokerError.Uninitialized
  | some config =>
    match s.status with
    | none => Except.error BrokerError.Uninitialized
    | some status =>
      match s.regions region_id with
      | none => Except.error BrokerError.UnknownRegion
      | some region =>
        let owner_ok : Bool :=
          match maybe_check_owner with
          | some check_owner => check_owner == region.owner
          | none => true
        if owner_ok then
          let last_commit_timeslice := status.last_timeslice + config.advance_notice
          let region_id :=
            if region_id.begin ≤ last_commit_timeslice then
              { region_id with begin := last_commit_timeslice + 1 }
            else region_id
          let s := { s with regions := Function.update s.regions region_id none }
          if region_id.begin < region.end_ then
            Except.ok (s, [], some (region_id, region))
          else
            Except.ok (s, [BrokerEvent.Dropped region_id], none)
        else Except.error BrokerError.NotOwner

/-! ## Checked 128-bit instantiation of the price arithmetic

`BalanceOf<T>` is generic; runtimes instantiate it at `u128`.  The source's
`old + extra * old` (line 52) and `reserve_price * 2` (line 103) are plain
(non-saturating) operations, which panic on overflow under the runtime's
overflow-checked arithmetic.  `none` models that panic.  The `Perbill`
multiplication itself cannot overflow at 128 bits
(`x / ACCURACY * e ≤ x` for `e ≤ ACCURACY` and the correction is
`< ACCURACY`), and the undersold branch's subtraction cannot underflow
(`perbillMul e x ≤ x` for `e ≤ ACCURACY`), so only the two plain operations
are checked. -/

/-- `u128` checked addition: `none` models the overflow panic. -/
def checkedAddU128 (a b : Nat) : Option Nat :=
  if a + b < 2 ^ 128 then some (a + b) else none

/-- `u128` checked multiplication: `none` models the overflow panic. -/
def checkedMulU128 (a b : Nat) : Option Nat :=
  if a * b < 2 ^ 128 then some (a * b) else none

/-- `bump_price` at `BalanceOf<T> = u128`, with the source's plain `+`
modelled as checked addition. -/
def bump_price_u128 (offered ideal sold old : Nat) : Option Nat :=
  if ideal < sold then
    let extra := if ideal < offered then fromRational (sold - ideal) (offered - ideal) else 0
    checkedAddU128 old (perbillMul extra old)
  else
    let extra := if 0 < ideal then leftFromOne (fromRational sold ideal) else 0
    some (old - perbillMul extra old)

/-- `rotate_sale`'s `let start_price = reserve_price * 2u32.into();` at
`BalanceOf<T> = u128`, with the source's plain `*` modelled as checked
multiplication. -/
def start_price_u128 (reserve_price : Nat) : Option Nat :=
  checkedMulU128 reserve_price 2

/-! ## Concrete fixtures for witnesses and counterexamples -/

/-- A broker state with empty storage. -/
def emptyState : BrokerState where
  status := none
  configuration := none
  saleInfo := none
  workplan := fun _ => none
  workload := fun _ => []
  instaPoolIo := fun _ => ⟨0, 0⟩
  instaPoolHistory := fun _ => none
  leases := []
  reservations := []
  allowedRenewals := fun _ => none
  regions := fun _ => none

/-- An initialized state holding one region `[5, 100)` on core 0 while the
last committed timeslice is `10` (`last_timeslice = 10`, zero advance
notice). -/
def regionFixtureState : BrokerState :=
  { emptyState with
      status := some ⟨0, 10, 0⟩
      configuration := some ⟨0, 0, 0, 10, 0, none, 0⟩
      regions := Function.update emptyState.regions ⟨5, 0, completeMask⟩ (some ⟨100, 1, none⟩) }

end Broker

/-! ## The task-scheduler dispatch loop (claim C3)

Modelled from the spec: the scheduler pallet's `lib.rs` is not under `src/`
(only `frame/scheduler/src/tests.rs` is), so the per-block dispatch loop is
modelled from spec §4.3 (step 3 of the dispatch loop) and §8, aligned with the
behaviour the in-repo test `scheduler_respects_hard_deadlines_more` pins down:
tasks are ordered by ascending priority (stable); a task in the hard-deadline
tier executes unconditionally, even when the weight budget is already
exhausted; a soft task that does not fit leaves itself and all following soft
tasks for the next time unit, while later hard-deadline tasks still execute. -/

namespace Sched

/-- Modelled from the spec: a scheduled task, reduced to the fields the
dispatch-loop claim depends on (priority; declared weight). -/
structure Task where
  priority : Nat
  weight : Nat
deriving DecidableEq

/-- Modelled from the spec: the configured hard-deadline threshold
(`schedule::HARD_DEADLINE = 63` in the scheduler; the test schedules
priority-0 tasks).  A task is in the hard-deadline tier iff its priority is at
or below this value. -/
def HARD_DEADLINE : Nat := 63

/-- Priority ordering used by the dispatch loop (ascending, stable). -/
def taskLe (a b : Task) : Prop := a.priority ≤ b.priority

instance : DecidableRel taskLe := fun a b => by
  unfold taskLe; infer_instance

/-- Modelled from the spec: once the weight budget is exhausted, the remaining
pass executes only hard-deadline tasks; all soft tasks are postponed. -/
def dispatchHardOnly : List Task → List Task
  | [] => []
  | t :: rest =>
    if t.priority ≤ HARD_DEADLINE then t :: dispatchHardOnly rest else dispatchHardOnly rest

/-- Modelled from the spec: the prioritized dispatch pass.  `used` is the
weight consumed so far.  A hard-deadline task executes unconditionally (its
weight overdraws the budget if needed); a soft task executes only if it fits,
and the first soft task that does not fit switches the pass to hard-only
mode. -/
def dispatchPass (budget : Nat) : List Task → Nat → List Task
  | [], _ => []
  | t :: rest, used =>
    if t.priority ≤ HARD_DEADLINE then t :: dispatchPass budget rest (used + t.weight)
    else if used + t.weight ≤ budget then t :: dispatchPass budget rest (used + t.weight)
    else dispatchHardOnly rest

/-- Modelled from the spec: one time unit's agenda service — order the agenda
by priority and run the dispatch pass with a fresh weight budget.  Returns the
executed tasks in execution order. -/
def service_agenda (budget : Nat) (agenda : List Task) : List Task :=
  dispatchPass budget (List.insertionSort taskLe agenda) 0

end Sched

/-! # Theorems -/

namespace Broker

theorem perbillMul_eq (e x : Nat) :
    perbillMul e x = x * e / ACCURACY
      + (if ACCURACY / 2 < x * e % ACCURACY then 1 else 0) := by
  have hA : 0 < ACCURACY := by norm_num [ACCURACY]
  have hx : ACCURACY * (x / ACCURACY) + x % ACCURACY = x := Nat.div_add_mod x ACCURACY
  have hxe : x * e = ACCURACY * (x / ACCURACY * e) + x % ACCURACY * e := by
    rw [← Nat.mul_assoc, ← Nat.add_mul, hx]
  rw [perbillMul, rationalMulCorrection, hxe, Nat.mul_add_div hA, Nat.mul_add_mod]
  ring

/-- `perbillMul e x ≤ x` whenever `e ≤ ACCURACY`: the scaled value never
exceeds the input, even after nearest rounding. -/
theorem perbillMul_le {e : Nat} (x : Nat) (he : e ≤ ACCURACY) : perbillMul e x ≤ x := by
  have hA : 0 < ACCURACY := by norm_num [ACCURACY]
  rw [perbillMul_eq]
  by_cases hr : ACCURACY / 2 < x * e % ACCURACY
  · simp only [hr, if_pos]
    have hne : x * e % ACCURACY ≠ 0 := by omega
    have hlt : x * e < x * ACCURACY := by
      rcases Nat.lt_or_ge (x * e) (x * ACCURACY) with h | h
      · exact h
      · have h1 : x * e = x * ACCURACY := le_antisymm (Nat.mul_le_mul_left x he) h
        have h2 : x * e % ACCURACY = 0 := by rw [h1, Nat.mul_mod_left]
        omega
    have := (Nat.div_lt_iff_lt_mul hA).2 hlt
    omega
  · simp only [hr, if_neg, Nat.add_zero]
    calc x * e / ACCURACY ≤ x * ACCURACY / ACCURACY :=
          Nat.div_le_div_right (Nat.mul_le_mul_left x he)
      _ = x := Nat.mul_div_cancel x hA

/-- When the fraction is 60% (the value arising in the spec's concrete sale
example), the scaled value is at least 1 for every positive input. -/
theorem perbillMul_sixty_pos {x : Nat} (hx : 0 < x) :
    1 ≤ perbillMul 600000000 x := by
  rw [perbillMul_eq]
  rcases Nat.lt_or_ge x 2 with h2 | h2
  · have hx1 : x = 1 := by omega
    subst hx1
    decide
  · have h1 : 1 * ACCURACY ≤ x * 600000000 := by
      have := Nat.mul_le_mul_right 600000000 h2
      simp only [ACCURACY]
      omega
    have := (Nat.le_div_iff_mul_le (by norm_num [ACCURACY] : 0 < ACCURACY)).2 h1
    omega

/-- The oversold instance of `bump_price` from the spec's example. -/
theorem bump_price_oversold_eq (P : Nat) :
    bump_price 100 50 80 P = P + perbillMul 600000000 P := by
  have h : fromRational 30 50 = 600000000 := by norm_num [fromRational, ACCURACY]
  simp [bump_price, h]

/-- The undersold instance of `bump_price` from the spec's example. -/
theorem bump_price_undersold_eq (P : Nat) :
    bump_price 100 50 20 P = P - perbillMul 600000000 P := by
  have h : leftFromOne (fromRational 20 50) = 600000000 := by
    norm_num [fromRational, leftFromOne, ACCURACY]
  simp [bump_price, h]

/-- `rotate_sale` always replaces `SaleInfo` with a record whose reserve price
is `bump_price(offered, ideal, sold, old)` when cores were offered and the old
reserve price otherwise. -/
theorem rotate_sale_reserve_price (s : BrokerState) (old_sale : SaleInfoRecord)
    (config : ConfigRecord) (now : Nat) :
    ∃ ns, (rotate_sale s old_sale config now).saleInfo = some ns ∧
      ns.reserve_price =
        (if 0 < old_sale.cores_offered then
          bump_price old_sale.cores_offered old_sale.ideal_cores_sold old_sale.cores_sold
            old_sale.reserve_price
        else old_sale.reserve_price) :=
  ⟨_, rfl, rfl⟩

end Broker

namespace Broker

/-- C1: For every positive old reserve price `P`, the sale-rotation price
update satisfies: with `offered = 100`, `ideal = 50`, `sold = 80` the new
reserve price computed by `bump_price` strictly exceeds `P` (oversold case);
with `sold = 20` it is strictly less than `P` (undersold case); and when
`cores_offered = 0` the rotation leaves the reserve price equal to `P`. -/
theorem sale_rotation_price_direction (P : Nat) (hP : 0 < P) :
    P < bump_price 100 50 80 P ∧
    bump_price 100 50 20 P < P ∧
    ∀ (s : BrokerState) (old_sale : SaleInfoRecord) (config : ConfigRecord) (now : Nat),
      old_sale.cores_offered = 0 → old_sale.reserve_price = P →
      ∃ ns, (rotate_sale s old_sale config now).saleInfo = some ns ∧
        ns.reserve_price = P := by
  refine ⟨?_, ?_, ?_⟩
  · rw [bump_price_oversold_eq]
    have := perbillMul_sixty_pos hP
    omega
  · rw [bump_price_undersold_eq]
    exact Nat.sub_lt hP (perbillMul_sixty_pos hP)
  · intro s old_sale config now h0 hres
    obtain ⟨ns, hns, hprice⟩ := rotate_sale_reserve_price s old_sale config now
    refine ⟨ns, hns, ?_⟩
    rw [hprice, h0]
    simp [hres]

/-- Witness for C1 at `P = 3`, with the zero-offered case evaluated on a
concrete sale record. -/
theorem sale_rotation_price_direction_witness :
    (0 : Nat) < 3 ∧ 3 < bump_price 100 50 80 3 ∧ bump_price 100 50 20 3 < 3 ∧
    ∃ ns, (rotate_sale emptyState ⟨0, 0, 6, 3, 10, 20, 0, 0, 0, 0⟩
        ⟨0, 0, 0, 10, 0, none, 0⟩ 0).saleInfo = some ns ∧ ns.reserve_price = 3 := by
  have h := sale_rotation_price_direction 3 (by decide)
  exact ⟨by decide, h.1, h.2.1, h.2.2 emptyState _ _ 0 rfl rfl⟩

end Broker

namespace Sched

/-- Every hard-deadline task in the list survives the hard-only pass. -/
theorem mem_dispatchHardOnly {t : Task} (hp : t.priority ≤ HARD_DEADLINE) :
    ∀ {l : List Task}, t ∈ l → t ∈ dispatchHardOnly l := by
  intro l
  induction l with
  | nil => intro h; cases h
  | cons a rest ih =>
    intro h
    simp only [dispatchHardOnly]
    rcases List.mem_cons.1 h with rfl | hmem
    · rw [if_pos hp]; exact List.mem_cons_self _ _
    · by_cases ha : a.priority ≤ HARD_DEADLINE
      · rw [if_pos ha]; exact List.mem_cons_of_mem _ (ih hmem)
      · rw [if_neg ha]; exact ih hmem

/-- Every hard-deadline task in the list is executed by the dispatch pass,
whatever the budget and the weight already used. -/
theorem mem_dispatchPass {budget : Nat} {t : Task} (hp : t.priority ≤ HARD_DEADLINE) :
    ∀ (l : List Task) (used : Nat), t ∈ l → t ∈ dispatchPass budget l used := by
  intro l
  induction l with
  | nil => intro used h; cases h
  | cons a rest ih =>
    intro used h
    simp only [dispatchPass]
    rcases List.mem_cons.1 h with rfl | hmem
    · rw [if_pos hp]; exact List.mem_cons_self _ _
    · by_cases ha : a.priority ≤ HARD_DEADLINE
      · rw [if_pos ha]; exact List.mem_cons_of_mem _ (ih _ hmem)
      · rw [if_neg ha]
        by_cases hw : used + a.weight ≤ budget
        · rw [if_pos hw]; exact List.mem_cons_of_mem _ (ih _ hmem)
        · rw [if_neg hw]; exact mem_dispatchHardOnly hp hmem

end Sched

/-- C3: for every agenda and weight budget, every task whose priority is at or
below the hard-deadline threshold is executed by the dispatch loop at its
scheduled time unit — with no hypothesis on weights, so in particular even
when the combined declared weight of the agenda's hard-deadline tasks exceeds
the per-unit budget. -/
theorem scheduler_hard_deadline_guarantee (budget : Nat) (agenda : List Sched.Task)
    (t : Sched.Task) (ht : t ∈ agenda) (hp : t.priority ≤ Sched.HARD_DEADLINE) :
    t ∈ Sched.service_agenda budget agenda := by
  unfold Sched.service_agenda
  exact Sched.mem_dispatchPass hp _ 0 ((List.mem_insertionSort Sched.taskLe).2 ht)

/-- Witness for C3: two priority-0 tasks of weight 100 on a budget of 10 (the
hard tasks' combined weight exceeds the budget tenfold); the theorem places
the first in the executed list. -/
theorem scheduler_hard_deadline_guarantee_witness :
    (Sched.Task.mk 0 100 ∈ [Sched.Task.mk 0 100, Sched.Task.mk 0 100] ∧
      (Sched.Task.mk 0 100).priority ≤ Sched.HARD_DEADLINE) ∧
    Sched.Task.mk 0 100 ∈ Sched.service_agenda 10 [Sched.Task.mk 0 100, Sched.Task.mk 0 100] :=
  ⟨⟨by decide, by decide⟩,
    scheduler_hard_deadline_guarantee 10 _ _ (by decide) (by decide)⟩

namespace Broker

/-- `process_timeslice` never changes `last_timeslice` (it only folds pool
deltas into the pool sizes). -/
theorem process_timeslice_keeps_last (s : BrokerState) (t : Timeslice) (st : StatusRecord)
    (cfg : ConfigRecord) (p : Nat) :
    ((process_timeslice s t st cfg p).2).last_timeslice = st.last_timeslice := rfl

/-- C2 (amended): provided `Status` and `Configuration` are both initialized,
`last_timeslice` is below the `u32` saturation bound and no revenue
notification is pending: when the current clock-derived timeslice strictly
exceeds `last_timeslice`, `do_tick` succeeds and advances `last_timeslice` by
exactly one; when it does not, `do_tick` returns the `NothingToDo` error (an
error result commits no state); and when the clock is exactly one timeslice
ahead, a second call for the same time unit after a successful first call is a
`NothingToDo` no-op. -/
theorem do_tick_advance_spec (s : BrokerState) (st : StatusRecord) (cfg : ConfigRecord)
    (inp : TickInputs) (hs : s.status = some st) (hc : s.configuration = some cfg)
    (hrev : inp.revenue = none) (hsat : st.last_timeslice < 4294967295) :
    (st.last_timeslice < current_timeslice inp →
      ∃ s' st', do_tick s inp = Except.ok s' ∧ s'.status = some st' ∧
        st'.last_timeslice = st.last_timeslice + 1) ∧
    (current_timeslice inp ≤ st.last_timeslice →
      do_tick s inp = Except.error BrokerError.NothingToDo) ∧
    (current_timeslice inp = st.last_timeslice + 1 →
      ∀ s', do_tick s inp = Except.ok s' →
        do_tick s' inp = Except.error BrokerError.NothingToDo) := by
  have part1 : st.last_timeslice < current_timeslice inp →
      ∃ s' st', do_tick s inp = Except.ok s' ∧ s'.status = some st' ∧
        st'.last_timeslice = st.last_timeslice + 1 := by
    intro h
    simp only [do_tick, hs, hc]
    rw [if_pos h]
    simp only [process_revenue, hrev]
    refine ⟨_, _, rfl, rfl, ?_⟩
    rw [process_timeslice_keeps_last]
    simp [satSuccU32, hsat]
  refine ⟨part1, ?_, ?_⟩
  · intro h
    simp only [do_tick, hs]
    rw [if_neg (not_lt.2 h)]
  · intro hcur s' hok
    obtain ⟨s'', st'', heq, hst, hlast⟩ :=
      part1 (show st.last_timeslice < current_timeslice inp from by
        rw [hcur]; exact Nat.lt_succ_self _)
    rw [heq] at hok
    injection hok with h'
    subst h'
    simp only [do_tick, hst]
    rw [if_neg (show ¬ st''.last_timeslice < current_timeslice inp from by
      rw [hlast, hcur]; exact lt_irrefl _)]

/-- Witness for C2 (amended): a concrete initialized state whose clock is one
timeslice ahead; the theorem yields the successful advance by one. -/
theorem do_tick_advance_spec_witness :
    ∃ s' st',
      do_tick { emptyState with
          status := some ⟨0, 0, 0⟩, configuration := some ⟨0, 0, 0, 10, 0, none, 0⟩ }
        ⟨1, 1, none, 0⟩ = Except.ok s' ∧
      s'.status = some st' ∧ st'.last_timeslice = 0 + 1 :=
  (do_tick_advance_spec _ ⟨0, 0, 0⟩ ⟨0, 0, 0, 10, 0, none, 0⟩ ⟨1, 1, none, 0⟩
    rfl rfl rfl (by decide)).1 (by decide)

/-- Counterexample to C2 as stated: a state with `Status` initialized but
`Configuration` missing, and the clock one timeslice ahead
(`current_timeslice = 1 > last_timeslice = 0`).  `do_tick` neither advances
`last_timeslice` nor returns `NothingToDo`: it fails with `Uninitialized`. -/
theorem do_tick_claim_counterexample :
    do_tick { emptyState with status := some ⟨0, 0, 0⟩ } ⟨1, 1, none, 0⟩ =
      Except.error BrokerError.Uninitialized := rfl

end Broker

namespace Broker

/-- `Perbill::from_rational` never exceeds one. -/
theorem fromRational_le_accuracy (p q : Nat) : fromRational p q ≤ ACCURACY := by
  unfold fromRational
  split
  · exact le_refl _
  · split
    · exact le_refl _
    · rename_i hq hpq
      have hq0 : 0 < q := Nat.pos_of_ne_zero hq
      calc p * ACCURACY / q ≤ q * ACCURACY / q :=
            Nat.div_le_div_right (Nat.mul_le_mul_right _ (by omega))
        _ = ACCURACY := Nat.mul_div_cancel_left _ hq0

/-- C4 (amended): the `Perbill` computations and the undersold subtraction
cannot overflow or underflow, so at 128-bit balances `bump_price` panics only
through its plain oversold addition `old + extra * old` — never for
`old < 2^127` — and the start-price doubling `reserve_price * 2` never panics
for `reserve_price < 2^127`; both do overflow at larger operands (see the
counterexample at `old = 2^128 - 1`). -/
theorem price_arithmetic_overflow_bounds :
    (∀ offered ideal sold old, old < 2 ^ 127 →
      bump_price_u128 offered ideal sold old = some (bump_price offered ideal sold old)) ∧
    (∀ r, r < 2 ^ 127 → start_price_u128 r = some (r * 2)) := by
  constructor
  · intro offered ideal sold old hold
    unfold bump_price_u128 bump_price
    by_cases h1 : ideal < sold
    · rw [if_pos h1, if_pos h1]
      have hextra :
          (if ideal < offered then fromRational (sold - ideal) (offered - ideal) else 0)
            ≤ ACCURACY := by
        split
        · exact fromRational_le_accuracy _ _
        · norm_num [ACCURACY]
      have hle := perbillMul_le old hextra
      unfold checkedAddU128
      rw [if_pos (by omega)]
    · rw [if_neg h1, if_neg h1]
  · intro r hr
    unfold start_price_u128 checkedMulU128
    rw [if_pos (by omega)]

/-- Witness for C4 (amended) at small concrete operands. -/
theorem price_arithmetic_overflow_bounds_witness :
    bump_price_u128 100 50 80 7 = some (bump_price 100 50 80 7) ∧
    start_price_u128 7 = some (7 * 2) :=
  ⟨price_arithmetic_overflow_bounds.1 100 50 80 7 (by norm_num),
    price_arithmetic_overflow_bounds.2 7 (by norm_num)⟩

/-- Counterexample to C4 as stated: at `BalanceOf<T> = u128`, the oversold
bump `old + extra * old` overflows (panics) at
`offered = 100, ideal = 50, sold = 80, old = 2^128 - 1`. -/
theorem bump_price_u128_overflow_counterexample :
    bump_price_u128 100 50 80 (2 ^ 128 - 1) = none := by decide

end Broker

namespace Broker

/-- C5 (code bug): a lease whose term extends beyond the new period's window
is nevertheless converted and removed.  Concrete run: one lease
`(until = 35, para = 7)`, old sale window ending at 20, region length 10, so
the new window is `[20, 30)` and `35 ≥ 30`.  The code's own comment
("can morph to a renewable as long as it's > begin and < end") requires this
lease to stay a live lease; instead `rotate_sale` computes
`expiring = until >= region_begin` with no upper bound, records an
`AllowedRenewalRecord` for it and empties the lease list. -/
theorem rotate_sale_lease_beyond_window_expires :
    (rotate_sale { emptyState with leases := [(35, 7)] }
        ⟨0, 0, 10, 5, 10, 20, 0, 0, 0, 0⟩ ⟨0, 0, 0, 10, 0, none, 0⟩ 0).leases = [] ∧
    (rotate_sale { emptyState with leases := [(35, 7)] }
        ⟨0, 0, 10, 5, 10, 20, 0, 0, 0, 0⟩ ⟨0, 0, 0, 10, 0, none, 0⟩ 0).allowedRenewals 0 =
      some ⟨30, 5, CompletionStatus.Complete [⟨completeMask, CoreAssignment.Task 7⟩]⟩ := by
  constructor <;> rfl

/-- C6 (code bug): the emitted assignment does not account for the core's full
capacity.  Concrete run: a workplan entry with a single 1-bit mask and no
carried workload yields the single share `(Task 1, 720)`; `720 < 57600`, yet
no `Idle` entry is appended, because the code compares the parts-of-57600
total `total_used` against `80` (mask-bit units) instead of `57600`. -/
theorem process_core_schedule_idle_fill_bug :
    (process_core_schedule
        { emptyState with
            workplan := Function.update emptyState.workplan (0, 0)
              (some [⟨1, CoreAssignment.Task 1⟩]) }
        0 0 0).2 = some (0, [(CoreAssignment.Task 1, 720)]) ∧
    720 < 57600 := by
  constructor
  · rfl
  · norm_num

/-- C7 (amended): a revenue notification with a zero amount is a no-op that
removes the period's `InstaPoolHistory` record and changes nothing else; but a
notification with a nonzero amount hitting a period whose pool record has a
zero contributor base is *not* a no-op clearing — it is rejected with
`InvalidContributions` (the error aborts the call, so nothing at all is
mutated and the record is not removed). -/
theorem process_revenue_zero_cases (s : BrokerState) (inp : TickInputs) (until_ amt : Nat)
    (hrev : inp.revenue = some (until_, amt)) :
    (amt = 0 →
      process_revenue s inp = Except.ok
        ({ s with instaPoolHistory :=
            Function.update s.instaPoolHistory (until_ / inp.timeslicePeriod) none }, true)) ∧
    (amt ≠ 0 →
      ((s.instaPoolHistory (until_ / inp.timeslicePeriod)).getD default).maybe_payout = none →
      ((s.instaPoolHistory (until_ / inp.timeslicePeriod)).getD default).total_contributions = 0 →
      process_revenue s inp = Except.error BrokerError.InvalidContributions) := by
  constructor
  · intro h0
    simp only [process_revenue, hrev]
    rw [if_pos h0]
  · intro hne hpay htot
    simp only [process_revenue, hrev]
    rw [if_neg hne]
    simp only [hpay, Option.isSome_none, Bool.false_eq_true, if_false]
    by_cases hsys :
        ((s.instaPoolHistory (until_ / inp.timeslicePeriod)).getD default).total_contributions <
          ((s.instaPoolHistory (until_ / inp.timeslicePeriod)).getD default).system_contributions
    · rw [if_pos hsys]
    · rw [if_neg hsys, if_pos htot]

/-- Witness for C7 (amended): the zero-amount branch evaluated on the empty
state. -/
theorem process_revenue_zero_cases_witness :
    process_revenue emptyState ⟨0, 1, some (5, 0), 0⟩ =
      Except.ok
        ({ emptyState with instaPoolHistory :=
            Function.update emptyState.instaPoolHistory (5 / 1) none }, true) :=
  (process_revenue_zero_cases emptyState ⟨0, 1, some (5, 0), 0⟩ 5 0 rfl).1 rfl

/-- Counterexample to C7 as stated: a nonzero-amount notification whose
period's pool record has `total_contributions = 0` (the empty state's default
record) is rejected with `InvalidContributions` — not treated as a no-op that
removes the period's history record. -/
theorem process_revenue_zero_base_counterexample :
    process_revenue emptyState ⟨0, 1, some (5, 7), 0⟩ =
      Except.error BrokerError.InvalidContributions := rfl

/-- C8: `process_revenue` rejects a pool-history record (awaiting payout) with
`total_contributions < system_contributions` or `total_contributions = 0` by
returning `InvalidContributions` rather than clamping; the error aborts the
call before any write (in the source every `ensure!` precedes the first
storage mutation and the `charge` transfer), so no storage record or balance
is mutated. -/
theorem process_revenue_invalid_contributions (s : BrokerState) (inp : TickInputs)
    (until_ amt : Nat) (hrev : inp.revenue = some (until_, amt)) (hamt : amt ≠ 0)
    (hpay : ((s.instaPoolHistory (until_ / inp.timeslicePeriod)).getD default).maybe_payout = none)
    (hbad : ((s.instaPoolHistory (until_ / inp.timeslicePeriod)).getD default).total_contributions <
        ((s.instaPoolHistory (until_ / inp.timeslicePeriod)).getD default).system_contributions ∨
      ((s.instaPoolHistory (until_ / inp.timeslicePeriod)).getD default).total_contributions = 0) :
    process_revenue s inp = Except.error BrokerError.InvalidContributions := by
  simp only [process_revenue, hrev]
  rw [if_neg hamt]
  simp only [hpay, Option.isSome_none, Bool.false_eq_true, if_false]
  rcases hbad with hlt | heq
  · rw [if_pos hlt]
  · by_cases hsys :
        ((s.instaPoolHistory (until_ / inp.timeslicePeriod)).getD default).total_contributions <
          ((s.instaPoolHistory (until_ / inp.timeslicePeriod)).getD default).system_contributions
    · rw [if_pos hsys]
    · rw [if_neg hsys, if_pos heq]

/-- Witness for C8: a nonzero notification against the default (all-zero) pool
record. -/
theorem process_revenue_invalid_contributions_witness :
    process_revenue emptyState ⟨0, 1, some (7, 9), 0⟩ =
      Except.error BrokerError.InvalidContributions :=
  process_revenue_invalid_contributions emptyState ⟨0, 1, some (7, 9), 0⟩ 7 9 rfl
    (by decide) rfl (Or.inr rfl)

end Broker

namespace Broker

/-- `akey` is injective: distinct assignments get distinct ranks. -/
theorem akey_injective {a b : CoreAssignment} (h : akey a = akey b) : a = b := by
  cases a <;> cases b <;> simp [akey] at h ⊢ <;> omega

/-- The head of a merged nonempty list carries the head's assignment. -/
theorem mergeAdj_head (x : CoreAssignment × Nat) (t : List (CoreAssignment × Nat)) :
    ∃ n rest, mergeAdj (x :: t) = (x.1, n) :: rest := by
  rcases hmt : mergeAdj t with _ | ⟨y, rest⟩
  · exact ⟨x.2, [], by simp [mergeAdj, hmt]⟩
  · by_cases h : x.1 = y.1
    · exact ⟨x.2 + y.2, rest, by simp [mergeAdj, hmt, h]⟩
    · exact ⟨x.2, y :: rest, by simp [mergeAdj, hmt, h]⟩

/-- Merging a list whose assignment ranks are pairwise nondecreasing yields a
list whose adjacent assignment ranks strictly increase. -/
theorem mergeAdj_chain (l : List (CoreAssignment × Nat))
    (hl : l.Pairwise (fun a b => akey a.1 ≤ akey b.1)) :
    List.Chain' (fun a b : CoreAssignment × Nat => akey a.1 < akey b.1) (mergeAdj l) := by
  induction l with
  | nil => simp [mergeAdj]
  | cons x t ih =>
    have hp := List.pairwise_cons.1 hl
    have hchain := ih hp.2
    rcases t with _ | ⟨z, t'⟩
    · simp [mergeAdj]
    · obtain ⟨n, rest, hmt⟩ := mergeAdj_head z t'
      have hxz : akey x.1 ≤ akey z.1 := hp.1 z (List.mem_cons_self z t')
      rw [hmt] at hchain
      have hunfold : mergeAdj (x :: z :: t') =
          if x.1 = z.1 then (x.1, x.2 + n) :: rest else x :: (z.1, n) :: rest := by
        rw [mergeAdj, hmt]
      by_cases h : x.1 = z.1
      · rw [hunfold, if_pos h]
        rcases rest with _ | ⟨w, rest'⟩
        · simp
        · have hzw := (List.chain'_cons.1 hchain).1
          have hrest := (List.chain'_cons.1 hchain).2
          refine List.chain'_cons.2 ⟨?_, hrest⟩
          show akey x.1 < akey w.1
          rw [h]
          exact hzw
      · rw [hunfold, if_neg h]
        refine List.chain'_cons.2 ⟨?_, hchain⟩
        show akey x.1 < akey z.1
        rcases lt_or_eq_of_le hxz with hlt | heqk
        · exact hlt
        · exact absurd (akey_injective heqk) h

/-- A list with strictly increasing assignment ranks is a fixed point of the
merge. -/
theorem mergeAdj_eq_self (l : List (CoreAssignment × Nat))
    (hl : List.Chain' (fun a b : CoreAssignment × Nat => akey a.1 < akey b.1) l) :
    mergeAdj l = l := by
  induction l with
  | nil => simp [mergeAdj]
  | cons x t ih =>
    rcases t with _ | ⟨z, t'⟩
    · simp [mergeAdj]
    · have hxz := (List.chain'_cons.1 hl).1
      have ht := (List.chain'_cons.1 hl).2
      have hmt := ih ht
      have hne : x.1 ≠ z.1 := fun he => by
        rw [show akey x.1 = akey z.1 from congrArg akey he] at hxz
        exact lt_irrefl _ hxz
      have hunfold : mergeAdj (x :: z :: t') =
          if x.1 = z.1 then (x.1, x.2 + z.2) :: t' else x :: z :: t' := by
        rw [mergeAdj, hmt]
      rw [hunfold, if_neg hne]

/-- C9: the coalescing step of the capacity workload scheduler (sort the
`(assignment, share)` entries, then merge each run of adjacent entries with
the same assignment into one entry by summing shares) is idempotent: applied
to its own output it returns the list unchanged. -/
theorem coalesce_idempotent (l : List (CoreAssignment × Nat)) :
    coalesce (coalesce l) = coalesce l := by
  have hsorted : (sortPairs l).Pairwise pairLe := List.sorted_insertionSort pairLe l
  have hp : (sortPairs l).Pairwise (fun a b => akey a.1 ≤ akey b.1) :=
    hsorted.imp (fun h => by unfold pairLe at h; omega)
  have hchain := mergeAdj_chain _ hp
  have hPairLt :
      (coalesce l).Pairwise (fun a b : CoreAssignment × Nat => akey a.1 < akey b.1) := by
    haveI : IsTrans (CoreAssignment × Nat)
        (fun a b : CoreAssignment × Nat => akey a.1 < akey b.1) :=
      ⟨fun _ _ _ h1 h2 => lt_trans h1 h2⟩
    exact List.chain'_iff_pairwise.1 hchain
  have hsorted2 : (coalesce l).Sorted pairLe := hPairLt.imp (fun h => Or.inl h)
  show mergeAdj (List.insertionSort pairLe (coalesce l)) = coalesce l
  rw [List.Sorted.insertionSort_eq hsorted2]
  exact mergeAdj_eq_self _ hchain

end Broker

namespace Broker

/-- C10 (amended): under an initialized configuration and status, for a stored
region, `utilize` never yields a region window at or before the committed
horizon `last_timeslice + advance_notice`: a begin at or before the horizon is
advanced to the timeslice immediately after it; the region entry under the
*possibly advanced* region id is removed (so when the begin is advanced, the
original entry is not the one removed and remains in storage — see the
counterexample); and if the adjusted begin is not strictly before the region's
end, `utilize` returns `none` and emits a `Dropped` event instead of returning
the region. -/
theorem utilize_spec (s : BrokerState) (cfg : ConfigRecord) (st : StatusRecord)
    (rid rid' : RegionId) (rec : RegionRecord)
    (hc : s.configuration = some cfg) (hs : s.status = some st)
    (hr : s.regions rid = some rec)
    (hrid' : rid' = if rid.begin ≤ st.last_timeslice + cfg.advance_notice
        then { rid with begin := st.last_timeslice + cfg.advance_notice + 1 }
        else rid) :
    st.last_timeslice + cfg.advance_notice < rid'.begin ∧
    (rid'.begin < rec.end_ →
      utilize s rid none = Except.ok
        ({ s with regions := Function.update s.regions rid' none }, [], some (rid', rec))) ∧
    (rec.end_ ≤ rid'.begin →
      utilize s rid none = Except.ok
        ({ s with regions := Function.update s.regions rid' none },
          [BrokerEvent.Dropped rid'], none)) := by
  refine ⟨?_, ?_, ?_⟩
  · rw [hrid']
    split
    · show st.last_timeslice + cfg.advance_notice < st.last_timeslice + cfg.advance_notice + 1
      exact Nat.lt_succ_self _
    · rename_i hgt
      exact not_le.1 hgt
  · intro hlt
    simp only [utilize, hc, hs, hr]
    rw [← hrid', if_pos hlt]
    simp only [if_true]
  · intro hge
    simp only [utilize, hc, hs, hr]
    rw [← hrid', if_neg (not_lt.2 hge)]
    simp only [if_true]

/-- Witness for C10 (amended): the region `[5, 100)` with horizon 10 is
advanced to begin at 11 and returned. -/
theorem utilize_spec_witness :
    utilize regionFixtureState ⟨5, 0, completeMask⟩ none = Except.ok
      ({ regionFixtureState with
          regions := Function.update regionFixtureState.regions ⟨11, 0, completeMask⟩ none },
        [], some (⟨11, 0, completeMask⟩, ⟨100, 1, none⟩)) :=
  (utilize_spec regionFixtureState ⟨0, 0, 0, 10, 0, none, 0⟩ ⟨0, 10, 0⟩
      ⟨5, 0, completeMask⟩ ⟨11, 0, completeMask⟩ ⟨100, 1, none⟩
      rfl rfl rfl (by decide)).2.1 (by decide)

/-- Counterexample to C10 as stated: a successful `utilize` call whose begin
was advanced (5 ≤ horizon 10, so the id becomes `begin = 11`) removes only the
advanced id; the original region entry (`begin = 5`) is still in storage after
the call. -/
theorem utilize_original_region_retained_counterexample :
    (utilize regionFixtureState ⟨5, 0, completeMask⟩ none).map
        (fun out => out.1.regions ⟨5, 0, completeMask⟩) =
      Except.ok (some ⟨100, 1, none⟩) := rfl

end Broker
